import Mathlib

/-!
Shallow embedding of the Gemini React chat client (`src/index.tsx`).

The component `App` keeps five pieces of React state: the nullable chat
session, the text of the input box, the ordered message list, a boolean
busy flag and a nullable error banner.  `handleSendMessage` guards on the
trimmed input, the busy flag and the session, appends the user message,
raises the busy flag, starts a response stream, appends a placeholder
reply and folds the stream's chunks into the placeholder's text; its
catch sets an error banner and filters the history by a freshly
recomputed timestamp id, and its finally clears the busy flag.
`initChat` creates the session and types out a fixed greeting character
by character.  A `useEffect` keyed on the message list scrolls the chat
container to its full height.  Each `Date.now()` call in the source is a
fresh sample and is modelled as a separate `Nat` parameter.
-/

namespace GeminiChat

/-- The role of a chat message (`role: 'user' | 'model'`). -/
inductive Role where
  | user
  | model
deriving DecidableEq, Repr

/-- A chat message (`interface Message`, lines 11–15). -/
structure Message where
  id : String
  role : Role
  text : String
deriving DecidableEq, Repr

/-- The React state of `App` (lines 18–22): nullable chat session, input
box text, ordered message list, busy flag, nullable error banner. -/
structure AppState where
  chat : Option Unit
  userInput : String
  chatHistory : List Message
  isLoading : Bool
  error : Option String
deriving DecidableEq, Repr

/-- The initial React state (the `useState` initialisers, lines 18–22). -/
def initialState : AppState :=
  { chat := none, userInput := "", chatHistory := [], isLoading := false,
    error := none }

/-- The error banner text set by the catch of `handleSendMessage` (line 100). -/
def sendErrorText : String :=
  "An error occurred while sending the message. Please try again."

/-- The error banner text set by the catch of `initChat` (line 51). -/
def initErrorText : String :=
  "Failed to initialize the chat. Please ensure your API key is set up correctly."

/-- The greeting typed out by `initChat` (line 38).  The source file stores
the final smiley as the four mojibake characters U+00F0 U+0178 U+02DC
U+0160, which is what the `for (const char of …)` loop iterates over. -/
def welcomeMessage : String :=
  "Hello! How can I help you today? ðŸ˜Š"

/-- `(Date.now() + 1).toString()` at line 82: the placeholder's id, built
from the `Date.now()` sample taken after the stream request resolves. -/
def modelMessageId (midTime : Nat) : String :=
  toString (midTime + 1)

/-- The user message built at lines 69–73 from the `Date.now()` sample at
submission time and the current input box text. -/
def mkUserMessage (now : Nat) (input : String) : Message :=
  { id := toString now, role := Role.user, text := input }

/-- JavaScript `String.prototype.trim`: strip leading and trailing
whitespace, modelled on the string's character list. -/
def jsTrim (s : String) : String :=
  String.mk
    (((s.toList.dropWhile Char.isWhitespace).reverse.dropWhile
      Char.isWhitespace).reverse)

/-- The guard at line 67: a submission is accepted iff the trimmed input
is non-empty, no request is outstanding, and the session is non-null. -/
def accepts (st : AppState) : Bool :=
  !(jsTrim st.userInput == "" || st.isLoading || st.chat.isNone)

/-- One per-chunk history update (lines 92–96): every message whose id
equals the placeholder id gets the accumulated text; all others are
returned untouched. -/
def chunkUpdate (mid : String) (newText : String) (hist : List Message) :
    List Message :=
  hist.map fun m => if m.id == mid then { m with text := newText } else m

/-- The `for await` loop of lines 90–97: fold the chunk texts in arrival
order, extending `currentText` and updating the history after each chunk. -/
def runChunks (mid : String) (text : String) (hist : List Message) :
    List String → String × List Message
  | [] => (text, hist)
  | c :: cs => runChunks mid (text ++ c) (chunkUpdate mid (text ++ c) hist) cs

/-- The catch-branch filter (line 102): drop every message whose id equals
`(Date.now() + 1).toString()` recomputed at the moment the error is
handled — not the saved placeholder id. -/
def catchFilter (errTime : Nat) (hist : List Message) : List Message :=
  hist.filter fun m => m.id != toString (errTime + 1)

/-- The possible behaviours of the awaited stream request and the
`for await` loop.  `midTime` is the `Date.now()` sample at line 82 and
`errTime` the one at line 102; they are independent samples. -/
inductive StreamOutcome where
  | ok (midTime : Nat) (chunks : List String)
  | sendError (errTime : Nat)
  | iterError (midTime : Nat) (chunks : List String) (errTime : Nat)
deriving DecidableEq, Repr

/-- The state after lines 69–77 of an accepted submission: user message
appended, input box cleared, busy flag raised, error banner cleared —
taken before the stream is started. -/
def acceptedPreState (st : AppState) (now : Nat) : AppState :=
  { st with chatHistory := st.chatHistory ++ [mkUserMessage now st.userInput],
            userInput := "", isLoading := true, error := none }

/-- The fresh placeholder reply appended at lines 85–88. -/
def placeholderMessage (midTime : Nat) : Message :=
  { id := modelMessageId midTime, role := Role.model, text := "" }

/-- The history from which the stream loop starts (after lines 85–88):
the accepted history with the empty placeholder appended at the end. -/
def preChunkHistory (st : AppState) (now midTime : Nat) : List Message :=
  (acceptedPreState st now).chatHistory ++ [placeholderMessage midTime]

/-- `handleSendMessage` (lines 65–106) as a function of the state at
submission, the `Date.now()` sample at line 70, and the request cycle's
outcome.  The finally (line 104) clears the busy flag on every path. -/
def handleSendMessage (st : AppState) (now : Nat) (outcome : StreamOutcome) :
    AppState :=
  if accepts st then
    let st1 := acceptedPreState st now
    match outcome with
    | StreamOutcome.ok midTime chunks =>
        { st1 with
            chatHistory := (runChunks (modelMessageId midTime) ""
              (preChunkHistory st now midTime) chunks).2,
            isLoading := false }
    | StreamOutcome.sendError errTime =>
        { st1 with
            chatHistory := catchFilter errTime st1.chatHistory,
            error := some sendErrorText, isLoading := false }
    | StreamOutcome.iterError midTime chunks errTime =>
        { st1 with
            chatHistory := catchFilter errTime ((runChunks (modelMessageId midTime) ""
              (preChunkHistory st now midTime) chunks).2),
            error := some sendErrorText, isLoading := false }
  else st

/-- Outcome of `initChat` (lines 26–55): the session is created (with the
`Date.now()` sample of line 39), or creation throws before `setChat`. -/
inductive InitOutcome where
  | ok (initTime : Nat)
  | createError
deriving DecidableEq, Repr

/-- The successive history values `initChat` commits while typing the
greeting (lines 40–47): the empty placeholder, then one singleton per
appended character. -/
def greetingTrace (id : String) (current : String) :
    List Char → List (List Message)
  | [] => [[{ id := id, role := Role.model, text := current }]]
  | c :: cs => [{ id := id, role := Role.model, text := current }] ::
      greetingTrace id (current.push c) cs

/-- `initChat` (lines 26–55).  On success the session is set and the final
history is the last greeting state; on failure only the error banner is
set and the session and history are untouched.  The finally (line 53)
clears the busy flag on both paths. -/
def initChat (st : AppState) : InitOutcome → AppState
  | InitOutcome.ok initTime =>
      { st with
          chat := some (), isLoading := false,
          chatHistory :=
            (greetingTrace (toString initTime) "" welcomeMessage.toList).getLastD [] }
  | InitOutcome.createError =>
      { st with error := some initErrorText, isLoading := false }

/-- The chat container's scroll state. -/
structure Container where
  scrollTop : Nat
  scrollHeight : Nat
deriving DecidableEq, Repr

/-- The effect of lines 59–63, registered with dependency list
`[chatHistory]` so that it runs after every history change: if the
container ref is set, assign its full scroll height to its scroll top. -/
def scrollEffect : Option Container → Option Container
  | some c => some { c with scrollTop := c.scrollHeight }
  | none => none

/-- Concatenation of a list of chunk texts in arrival order (the value
`currentText` accumulates across the loop). -/
def concatTexts : List String → String
  | [] => ""
  | c :: cs => c ++ concatTexts cs

/-- A concrete ready-to-send state, used by the concrete witnesses below. -/
def sampleState : AppState :=
  { chat := some (), userInput := "hi", chatHistory := [], isLoading := false,
    error := none }

/-- A concrete two-message history used by the concrete witnesses below. -/
def demoHist : List Message :=
  [{ id := "0", role := Role.user, text := "hi" },
   { id := "1", role := Role.model, text := "" }]

/-- A concrete ready-to-send state whose history already holds a message
with id "1", used to exercise the catch-branch filter concretely. -/
def stC4 : AppState :=
  { chat := some (), userInput := "hi",
    chatHistory := [{ id := "1", role := Role.model, text := "welcome" }],
    isLoading := false, error := none }

/-- The observable identity of a message: its id and role. -/
def idRole (m : Message) : String × Role :=
  (m.id, m.role)

/-- The id the catch-branch filter (line 102) removes, when the outcome
reaches the catch: the string of the catch-time clock sample plus one. -/
def removedId : StreamOutcome → Option String
  | StreamOutcome.ok _ _ => none
  | StreamOutcome.sendError e => some (toString (e + 1))
  | StreamOutcome.iterError _ _ e => some (toString (e + 1))

/-- The messages an accepted call appends before any filtering: the user
message, and — once the stream request resolves — the placeholder. -/
def appendedMessages (st : AppState) (now : Nat) :
    StreamOutcome → List Message
  | StreamOutcome.ok midTime _ =>
      [mkUserMessage now st.userInput, placeholderMessage midTime]
  | StreamOutcome.sendError _ => [mkUserMessage now st.userInput]
  | StreamOutcome.iterError midTime _ _ =>
      [mkUserMessage now st.userInput, placeholderMessage midTime]

/-- `chunkUpdate` rewrites the text of the last message when it carries the
placeholder id, keeping its id and role. -/
theorem chunkUpdate_getLast_same (mid t : String) (hist : List Message)
    (m : Message) (h : hist.getLast? = some m) (hm : m.id = mid) :
    (chunkUpdate mid t hist).getLast? = some { m with text := t } := by
  unfold chunkUpdate
  rw [List.getLast?_map, h]
  simp [hm]

/-- Loop invariant of `runChunks`: if the history ends in the placeholder
carrying the accumulated text, the loop extends that text by every chunk
in order, and the placeholder stays at the end with the extended text. -/
theorem runChunks_invariant (mid : String) (chunks : List String) :
    ∀ (t : String) (hist : List Message) (r : Role),
      hist.getLast? = some { id := mid, role := r, text := t } →
      (runChunks mid t hist chunks).1 = t ++ concatTexts chunks ∧
      (runChunks mid t hist chunks).2.getLast? =
        some { id := mid, role := r, text := t ++ concatTexts chunks } := by
  induction chunks with
  | nil =>
      intro t hist r h
      simp [runChunks, concatTexts, String.append_empty, h]
  | cons c cs ih =>
      intro t hist r h
      have hlast := chunkUpdate_getLast_same mid (t ++ c) hist _ h rfl
      have hrec := ih (t ++ c) (chunkUpdate mid (t ++ c) hist) r hlast
      refine ⟨?_, ?_⟩
      · show (runChunks mid (t ++ c) (chunkUpdate mid (t ++ c) hist) cs).1 =
          t ++ concatTexts (c :: cs)
        rw [hrec.1, String.append_assoc]
        rfl
      · show (runChunks mid (t ++ c) (chunkUpdate mid (t ++ c) hist) cs).2.getLast? = _
        rw [hrec.2, String.append_assoc]
        rfl

/-- Processing a concatenation of chunk lists is processing the first list
and then the second from the intermediate accumulator and history. -/
theorem runChunks_append (mid : String) (l1 l2 : List String) :
    ∀ (t : String) (hist : List Message),
      runChunks mid t hist (l1 ++ l2) =
        runChunks mid (runChunks mid t hist l1).1
          (runChunks mid t hist l1).2 l2 := by
  induction l1 with
  | nil => intro t hist; rfl
  | cons c cs ih =>
      intro t hist
      exact ih (t ++ c) (chunkUpdate mid (t ++ c) hist)

/-- C1: during an accepted `handleSendMessage`, after the n-th chunk the
placeholder — the last message of the history — holds exactly the
concatenation of the first n chunk texts in arrival order; the state after
the first n chunks is the intermediate state of the full run; and when
the stream ends the placeholder holds the concatenation of all chunks. -/
theorem streaming_placeholder_prefix_text
    (st : AppState) (now midTime : Nat) (chunks : List String) (n : Nat) :
    ((runChunks (modelMessageId midTime) "" (preChunkHistory st now midTime)
        (chunks.take n)).2).getLast? =
      some { id := modelMessageId midTime, role := Role.model,
             text := concatTexts (chunks.take n) } ∧
    runChunks (modelMessageId midTime) "" (preChunkHistory st now midTime)
        chunks =
      runChunks (modelMessageId midTime)
        (runChunks (modelMessageId midTime) ""
          (preChunkHistory st now midTime) (chunks.take n)).1
        (runChunks (modelMessageId midTime) ""
          (preChunkHistory st now midTime) (chunks.take n)).2
        (chunks.drop n) ∧
    (accepts st = true →
      (handleSendMessage st now
          (StreamOutcome.ok midTime chunks)).chatHistory.getLast? =
        some { id := modelMessageId midTime, role := Role.model,
               text := concatTexts chunks }) := by
  have hbase : (preChunkHistory st now midTime).getLast? =
      some { id := modelMessageId midTime, role := Role.model, text := "" } :=
    List.getLast?_concat _
  refine ⟨?_, ?_, ?_⟩
  · have h := (runChunks_invariant (modelMessageId midTime) (chunks.take n) ""
      (preChunkHistory st now midTime) Role.model hbase).2
    rwa [String.empty_append] at h
  · conv_lhs => rw [← List.take_append_drop n chunks]
    exact runChunks_append _ _ _ _ _
  · intro hacc
    have h := (runChunks_invariant (modelMessageId midTime) chunks ""
      (preChunkHistory st now midTime) Role.model hbase).2
    rw [String.empty_append] at h
    simpa [handleSendMessage, hacc] using h

/-- Concrete instance of C1 with every hypothesis discharged. -/
theorem streaming_placeholder_prefix_text_witness :
    accepts sampleState = true ∧
    (handleSendMessage sampleState 0
        (StreamOutcome.ok 0 ["a", "b"])).chatHistory.getLast? =
      some { id := "1", role := Role.model, text := "ab" } :=
  ⟨by decide,
    (streaming_placeholder_prefix_text sampleState 0 0 ["a", "b"] 1).2.2
      (by decide)⟩

/-- C2: a submission whose trimmed input is empty, or made while a request
is outstanding, or before the session exists, leaves the whole state —
history, input text, busy flag and error — unchanged. -/
theorem rejected_submission_noop (st : AppState) (now : Nat)
    (o : StreamOutcome)
    (h : jsTrim st.userInput = "" ∨ st.isLoading = true ∨ st.chat = none) :
    handleSendMessage st now o = st := by
  have hacc : accepts st = false := by
    unfold accepts
    rcases h with h | h | h <;> simp [h]
  simp [handleSendMessage, hacc]

/-- Concrete instance of C2 with every hypothesis discharged. -/
theorem rejected_submission_noop_witness :
    (jsTrim initialState.userInput = "" ∨ initialState.isLoading = true ∨
      initialState.chat = none) ∧
    handleSendMessage initialState 0 (StreamOutcome.ok 0 ["a"]) =
      initialState :=
  ⟨Or.inl (by decide),
    rejected_submission_noop initialState 0 (StreamOutcome.ok 0 ["a"])
      (Or.inl (by decide))⟩

/-- C3: an accepted submission enters the stream loop with the previous
history extended by exactly the user's message followed by one fresh
placeholder with role model and empty text; every previously present
message is kept unchanged and in place, before any chunk is processed. -/
theorem accepted_appends_user_then_placeholder
    (st : AppState) (now midTime : Nat) (chunks : List String)
    (hacc : accepts st = true) :
    preChunkHistory st now midTime =
      st.chatHistory ++
        [mkUserMessage now st.userInput, placeholderMessage midTime] ∧
    (placeholderMessage midTime).role = Role.model ∧
    (placeholderMessage midTime).text = "" ∧
    (handleSendMessage st now (StreamOutcome.ok midTime chunks)).chatHistory =
      (runChunks (modelMessageId midTime) "" (preChunkHistory st now midTime)
        chunks).2 := by
  refine ⟨?_, rfl, rfl, ?_⟩
  · simp [preChunkHistory, acceptedPreState]
  · simp [handleSendMessage, hacc]

/-- Concrete instance of C3 with every hypothesis discharged. -/
theorem accepted_appends_user_then_placeholder_witness :
    accepts sampleState = true ∧
    preChunkHistory sampleState 0 4 =
      sampleState.chatHistory ++
        [mkUserMessage 0 sampleState.userInput, placeholderMessage 4] :=
  ⟨by decide,
    (accepted_appends_user_then_placeholder sampleState 0 4 [] (by decide)).1⟩

/-- C5: a per-chunk update touches only messages carrying the placeholder
id: the history length is unchanged, every message with a different id is
returned untouched at its position, and every message — matched or not —
keeps its id and role. -/
theorem chunk_update_frame (mid t : String) (hist : List Message) :
    (chunkUpdate mid t hist).length = hist.length ∧
    (∀ (i : Nat) (m : Message), hist[i]? = some m → m.id ≠ mid →
      (chunkUpdate mid t hist)[i]? = some m) ∧
    (∀ (i : Nat) (m : Message), hist[i]? = some m →
      ∃ m', (chunkUpdate mid t hist)[i]? = some m' ∧
        m'.id = m.id ∧ m'.role = m.role) := by
  refine ⟨List.length_map _ _, ?_, ?_⟩
  · intro i m hm hne
    have : (m.id == mid) = false := by
      simpa using hne
    simp [chunkUpdate, List.getElem?_map, hm, this]
    exact fun h => absurd h hne
  · intro i m hm
    by_cases hid : m.id = mid
    · exact ⟨{ m with text := t }, by simp [chunkUpdate, List.getElem?_map, hm, hid],
        rfl, rfl⟩
    · have : (m.id == mid) = false := by simpa using hid
      refine ⟨m, ?_, rfl, rfl⟩
      simp [chunkUpdate, List.getElem?_map, hm, this]
      exact fun h => absurd h hid

/-- Concrete instance of C5 with every hypothesis discharged. -/
theorem chunk_update_frame_witness :
    (chunkUpdate "1" "x" demoHist)[0]? =
      some { id := "0", role := Role.user, text := "hi" } :=
  (chunk_update_frame "1" "x" demoHist).2.1 0
    { id := "0", role := Role.user, text := "hi" } (by decide) (by decide)

/-- C6: an accepted submission raises the busy flag before the stream is
started, and on every outcome — success, failed request, failed
iteration — `handleSendMessage` ends with the busy flag cleared. -/
theorem busy_flag_cleared (st : AppState) (now : Nat) (o : StreamOutcome)
    (hacc : accepts st = true) :
    (acceptedPreState st now).isLoading = true ∧
    (handleSendMessage st now o).isLoading = false := by
  refine ⟨rfl, ?_⟩
  cases o <;> simp [handleSendMessage, hacc]

/-- Concrete instance of C6 with every hypothesis discharged. -/
theorem busy_flag_cleared_witness :
    accepts sampleState = true ∧
    (acceptedPreState sampleState 0).isLoading = true ∧
    (handleSendMessage sampleState 0
      (StreamOutcome.sendError 3)).isLoading = false :=
  ⟨by decide, busy_flag_cleared sampleState 0 (StreamOutcome.sendError 3)
    (by decide)⟩

/-- C7: whenever the effect keyed on the message list fires, it scrolls the
container to its full height: with the ref set the new scroll top equals
the unchanged scroll height, and with the ref unset nothing happens. -/
theorem scroll_effect_to_bottom (c : Container) :
    scrollEffect (some c) =
      some { scrollTop := c.scrollHeight, scrollHeight := c.scrollHeight } ∧
    scrollEffect none = none :=
  ⟨rfl, rfl⟩

/-- When the guard of line 67 rejects, `handleSendMessage` is the identity. -/
theorem sendMessage_guard_noop (st : AppState) (now : Nat) (o : StreamOutcome)
    (h : accepts st = false) : handleSendMessage st now o = st := by
  simp [handleSendMessage, h]

/-- Filtering keeps the last element when it satisfies the predicate. -/
theorem filter_getLast_kept (p : Message → Bool) (l : List Message)
    (m : Message) (h : l.getLast? = some m) (hp : p m = true) :
    (l.filter p).getLast? = some m := by
  rw [List.getLast?_eq_head?_reverse] at h ⊢
  rw [← List.filter_reverse]
  cases hrev : l.reverse with
  | nil => rw [hrev] at h; simp at h
  | cons a tl =>
      rw [hrev] at h
      simp only [List.head?] at h
      obtain rfl : a = m := by injection h
      rw [List.filter_cons_of_pos hp]
      rfl

/-- C8: when starting or iterating the stream throws, the error banner is
set to the fixed message, no chunk text beyond the chunks processed
before the error is appended, and the catch filter removes exactly the
messages whose id is the string of the catch-time clock plus one — not
the saved placeholder id — so the empty or partial placeholder survives
whenever that recomputed id differs from the placeholder's id. -/
theorem catch_filters_recomputed_id
    (st : AppState) (now midTime errTime : Nat) (chunks : List String)
    (hacc : accepts st = true) :
    (handleSendMessage st now
        (StreamOutcome.iterError midTime chunks errTime)).error =
      some sendErrorText ∧
    (handleSendMessage st now
        (StreamOutcome.iterError midTime chunks errTime)).chatHistory =
      ((runChunks (modelMessageId midTime) ""
          (preChunkHistory st now midTime) chunks).2).filter
        (fun m => m.id != toString (errTime + 1)) ∧
    (handleSendMessage st now (StreamOutcome.sendError errTime)).error =
      some sendErrorText ∧
    (toString (errTime + 1) ≠ modelMessageId midTime →
      (handleSendMessage st now
          (StreamOutcome.iterError midTime chunks
            errTime)).chatHistory.getLast? =
        some { id := modelMessageId midTime, role := Role.model,
               text := concatTexts chunks }) := by
  refine ⟨by simp [handleSendMessage, hacc],
    by simp [handleSendMessage, hacc, catchFilter],
    by simp [handleSendMessage, hacc], ?_⟩
  intro hne
  have hbase : (preChunkHistory st now midTime).getLast? =
      some { id := modelMessageId midTime, role := Role.model, text := "" } :=
    List.getLast?_concat _
  have hrun := (runChunks_invariant (modelMessageId midTime) chunks ""
    (preChunkHistory st now midTime) Role.model hbase).2
  rw [String.empty_append] at hrun
  have hkeep : (modelMessageId midTime != toString (errTime + 1)) = true := by
    simpa using fun h => hne h.symm
  have hh : (handleSendMessage st now
      (StreamOutcome.iterError midTime chunks errTime)).chatHistory =
      catchFilter errTime ((runChunks (modelMessageId midTime) ""
        (preChunkHistory st now midTime) chunks).2) := by
    simp [handleSendMessage, hacc]
  rw [hh]
  exact filter_getLast_kept _ _ _ hrun hkeep

/-- Concrete instance of C8 with every hypothesis discharged. -/
theorem catch_filters_recomputed_id_witness :
    accepts sampleState = true ∧
    toString (7 + 1) ≠ modelMessageId 0 ∧
    (handleSendMessage sampleState 0
        (StreamOutcome.iterError 0 ["a"] 7)).chatHistory.getLast? =
      some { id := "1", role := Role.model, text := "a" } :=
  ⟨by decide, by decide,
    (catch_filters_recomputed_id sampleState 0 0 7 ["a"]
      (by decide)).2.2.2 (by decide)⟩

/-- Pushing a character then appending is appending with the character in
front of the appended characters. -/
theorem push_append_mk (s : String) (c : Char) (l : List Char) :
    s.push c ++ String.mk l = s ++ String.mk (c :: l) := by
  apply String.ext
  rw [String.data_append, String.data_append, String.data_push]
  simp

/-- The k-th committed history of the greeting loop is a singleton model
message holding the accumulator extended by the first k characters. -/
theorem greetingTrace_getElem? (id : String) :
    ∀ (cs : List Char) (cur : String) (k : Nat), k ≤ cs.length →
      (greetingTrace id cur cs)[k]? =
        some [{ id := id, role := Role.model,
                text := cur ++ String.mk (cs.take k) }] := by
  intro cs
  induction cs with
  | nil =>
      intro cur k hk
      obtain rfl : k = 0 := Nat.le_zero.mp hk
      simp [greetingTrace, String.append_empty]
  | cons c cs ih =>
      intro cur k hk
      cases k with
      | zero => simp [greetingTrace, String.append_empty]
      | succ k =>
          have hk' : k ≤ cs.length := Nat.succ_le_succ_iff.mp hk
          show ([{ id := id, role := Role.model, text := cur }] ::
            greetingTrace id (cur.push c) cs)[k + 1]? = _
          rw [List.getElem?_cons_succ, ih (cur.push c) k hk',
            push_append_mk]
          rfl

/-- The last committed history of the greeting loop is a singleton model
message holding the accumulator extended by every character. -/
theorem greetingTrace_getLastD (id : String) :
    ∀ (cs : List Char) (cur : String) (d : List Message),
      (greetingTrace id cur cs).getLastD d =
        [{ id := id, role := Role.model, text := cur ++ String.mk cs }] := by
  intro cs
  induction cs with
  | nil => intro cur d; simp [greetingTrace, String.append_empty]
  | cons c cs ih =>
      intro cur d
      show ([{ id := id, role := Role.model, text := cur }] ::
        greetingTrace id (cur.push c) cs).getLastD d = _
      rw [List.getLastD_cons, ih (cur.push c), push_append_mk]

/-- C9: after a successful initialisation the history holds exactly one
message with role model; after k steps of the greeting loop its text is
the first k characters of the fixed greeting; the final history holds the
whole greeting; the session is set; and the busy flag is cleared. -/
theorem init_success_greeting (st : AppState) (t k : Nat)
    (hk : k ≤ welcomeMessage.length) :
    (greetingTrace (toString t) "" welcomeMessage.toList)[k]? =
      some [{ id := toString t, role := Role.model,
              text := String.mk (welcomeMessage.toList.take k) }] ∧
    (initChat st (InitOutcome.ok t)).chatHistory =
      [{ id := toString t, role := Role.model, text := welcomeMessage }] ∧
    (initChat st (InitOutcome.ok t)).isLoading = false ∧
    (initChat st (InitOutcome.ok t)).chat = some () := by
  refine ⟨?_, ?_, rfl, rfl⟩
  · have h := greetingTrace_getElem? (toString t) welcomeMessage.toList "" k hk
    rwa [String.empty_append] at h
  · show (greetingTrace (toString t) "" welcomeMessage.toList).getLastD [] = _
    rw [greetingTrace_getLastD, String.empty_append]
    rfl

/-- Concrete instance of C9 with every hypothesis discharged. -/
theorem init_success_greeting_witness :
    (5 : Nat) ≤ welcomeMessage.length ∧
    (greetingTrace "7" "" welcomeMessage.toList)[5]? =
      some [{ id := "7", role := Role.model, text := "Hello" }] :=
  ⟨by decide, (init_success_greeting initialState 7 5 (by decide)).1⟩

/-- C10: if session creation throws during initialisation, the error
banner is set to the fixed message, the history stays empty, the session
stays null, the busy flag is cleared, and every subsequent submission is
a no-op regardless of the input text, the clock, or the stream outcome. -/
theorem init_failure_noop :
    (initChat initialState InitOutcome.createError).error =
      some initErrorText ∧
    (initChat initialState InitOutcome.createError).chatHistory = [] ∧
    (initChat initialState InitOutcome.createError).chat = none ∧
    (initChat initialState InitOutcome.createError).isLoading = false ∧
    ∀ (inp : String) (now : Nat) (o : StreamOutcome),
      handleSendMessage
          { initChat initialState InitOutcome.createError with
              userInput := inp } now o =
        { initChat initialState InitOutcome.createError with
            userInput := inp } := by
  refine ⟨rfl, rfl, rfl, rfl, ?_⟩
  intro inp now o
  apply sendMessage_guard_noop
  simp [accepts, initChat, initialState]

/-- C4, counterexample: the catch-branch update neither appends nor
replaces in place — with the submission clock at 5 and the catch clock at
0, the recomputed filter id "1" removes the pre-existing message with id
"1", so that message's id and role are not preserved by the update. -/
theorem history_update_shape_counterexample :
    ¬ (∀ m ∈ stC4.chatHistory,
        ∃ m', m' ∈ (handleSendMessage stC4 5
            (StreamOutcome.sendError 0)).chatHistory ∧
          m'.id = m.id ∧ m'.role = m.role) := by decide

/-- `chunkUpdate` keeps the id-and-role sequence of the history. -/
theorem chunkUpdate_map_idRole (mid t : String) (hist : List Message) :
    (chunkUpdate mid t hist).map idRole = hist.map idRole := by
  induction hist with
  | nil => rfl
  | cons m ms ih =>
      have hm : idRole (if m.id == mid then { m with text := t } else m) =
          idRole m := by
        cases hb : m.id == mid <;> simp [idRole, hb]
      show idRole (if m.id == mid then { m with text := t } else m) ::
          (chunkUpdate mid t ms).map idRole = idRole m :: ms.map idRole
      rw [hm, ih]

/-- The stream loop keeps the id-and-role sequence of the history. -/
theorem runChunks_map_idRole (mid : String) (chunks : List String) :
    ∀ (t : String) (hist : List Message),
      (runChunks mid t hist chunks).2.map idRole = hist.map idRole := by
  induction chunks with
  | nil => intro t hist; rfl
  | cons c cs ih =>
      intro t hist
      show (runChunks mid (t ++ c) (chunkUpdate mid (t ++ c) hist) cs).2.map
        idRole = _
      rw [ih, chunkUpdate_map_idRole]

/-- Every message of the history before the stream loop survives it with
its id and role. -/
theorem runChunks_mem_idRole (mid : String) (chunks : List String)
    (t : String) (hist : List Message) (m : Message) (hm : m ∈ hist) :
    ∃ m', m' ∈ (runChunks mid t hist chunks).2 ∧
      m'.id = m.id ∧ m'.role = m.role := by
  have h1 : idRole m ∈ (runChunks mid t hist chunks).2.map idRole := by
    rw [runChunks_map_idRole]
    exact List.mem_map_of_mem idRole hm
  obtain ⟨m', hm', he⟩ := List.mem_map.mp h1
  exact ⟨m', hm', congrArg Prod.fst he, congrArg Prod.snd he⟩

/-- C4, amended: every history update of `handleSendMessage` appends
messages at the end, rewrites the text of id-matched messages in place,
or — in the catch branch — removes the messages whose id equals the
recomputed timestamp id; hence the ids and roles of the resulting history
form, in order, a sublist of those of the previous history followed by
the appended messages, and every previously present message whose id
differs from the recomputed filter id survives with its id and role. -/
theorem history_update_shape_amended (st : AppState) (now : Nat)
    (o : StreamOutcome) :
    ((handleSendMessage st now o).chatHistory.map idRole).Sublist
      ((st.chatHistory ++
        (if accepts st then appendedMessages st now o else [])).map idRole) ∧
    (∀ m ∈ st.chatHistory, removedId o ≠ some m.id →
      ∃ m', m' ∈ (handleSendMessage st now o).chatHistory ∧
        m'.id = m.id ∧ m'.role = m.role) := by
  by_cases hacc : accepts st = true
  · cases o with
    | ok midTime chunks =>
        constructor
        · have hmap := runChunks_map_idRole (modelMessageId midTime) chunks ""
            (preChunkHistory st now midTime)
          have hpre : preChunkHistory st now midTime =
              st.chatHistory ++ appendedMessages st now
                (StreamOutcome.ok midTime chunks) := by
            simp [preChunkHistory, acceptedPreState, appendedMessages]
          simp only [handleSendMessage, hacc, if_true]
          rw [hmap, hpre]
        · intro m hm _
          have hmem : m ∈ preChunkHistory st now midTime := by
            show m ∈ (st.chatHistory ++ [mkUserMessage now st.userInput]) ++
              [placeholderMessage midTime]
            exact List.mem_append_left _ (List.mem_append_left _ hm)
          have := runChunks_mem_idRole (modelMessageId midTime) chunks ""
            (preChunkHistory st now midTime) m hmem
          simpa [handleSendMessage, hacc] using this
    | sendError errTime =>
        have hh : (handleSendMessage st now
            (StreamOutcome.sendError errTime)).chatHistory =
            catchFilter errTime
              (st.chatHistory ++ [mkUserMessage now st.userInput]) := by
          simp [handleSendMessage, hacc, acceptedPreState]
        constructor
        · have hsub : ((catchFilter errTime
              (st.chatHistory ++ [mkUserMessage now st.userInput])).map
                idRole).Sublist
              ((st.chatHistory ++ [mkUserMessage now st.userInput]).map
                idRole) :=
            (List.filter_sublist _).map idRole
          rw [hh]
          simpa [hacc, appendedMessages] using hsub
        · intro m hm hne
          simp only [removedId] at hne
          have hne' : m.id ≠ toString (errTime + 1) := fun h => hne (by rw [h])
          have hkeep : (m.id != toString (errTime + 1)) = true := by
            simpa using hne'
          refine ⟨m, ?_, rfl, rfl⟩
          rw [hh]
          exact List.mem_filter.mpr ⟨List.mem_append_left _ hm, hkeep⟩
    | iterError midTime chunks errTime =>
        have hh : (handleSendMessage st now
            (StreamOutcome.iterError midTime chunks errTime)).chatHistory =
            catchFilter errTime ((runChunks (modelMessageId midTime) ""
              (preChunkHistory st now midTime) chunks).2) := by
          simp [handleSendMessage, hacc]
        constructor
        · have hsub : ((catchFilter errTime
              ((runChunks (modelMessageId midTime) ""
                (preChunkHistory st now midTime) chunks).2)).map
                idRole).Sublist
              (((runChunks (modelMessageId midTime) ""
                (preChunkHistory st now midTime) chunks).2).map idRole) :=
            (List.filter_sublist _).map idRole
          have hmap := runChunks_map_idRole (modelMessageId midTime) chunks ""
            (preChunkHistory st now midTime)
          have hpre : preChunkHistory st now midTime =
              st.chatHistory ++ appendedMessages st now
                (StreamOutcome.iterError midTime chunks errTime) := by
            simp [preChunkHistory, acceptedPreState, appendedMessages]
          rw [hh]
          simp only [hacc, if_true]
          rw [← hpre, ← hmap]
          exact hsub
        · intro m hm hne
          simp only [removedId] at hne
          have hmem : m ∈ preChunkHistory st now midTime := by
            show m ∈ (st.chatHistory ++ [mkUserMessage now st.userInput]) ++
              [placeholderMessage midTime]
            exact List.mem_append_left _ (List.mem_append_left _ hm)
          obtain ⟨m', hm', hid, hrole⟩ := runChunks_mem_idRole
            (modelMessageId midTime) chunks ""
            (preChunkHistory st now midTime) m hmem
          have hne' : m'.id ≠ toString (errTime + 1) := by
            rw [hid]
            exact fun h => hne (by rw [h])
          have hkeep : (m'.id != toString (errTime + 1)) = true := by
            simpa using hne'
          refine ⟨m', ?_, hid, hrole⟩
          rw [hh]
          exact List.mem_filter.mpr ⟨hm', hkeep⟩
  · have hacc' : accepts st = false := by simpa using hacc
    rw [sendMessage_guard_noop st now o hacc']
    refine ⟨?_, ?_⟩
    · rw [hacc']
      simp
    · intro m hm _
      exact ⟨m, hm, rfl, rfl⟩

/-- Concrete instance of the amended C4 with every hypothesis discharged. -/
theorem history_update_shape_amended_witness :
    removedId (StreamOutcome.sendError 7) ≠ some "1" ∧
    ∃ m', m' ∈ (handleSendMessage stC4 5
        (StreamOutcome.sendError 7)).chatHistory ∧
      m'.id = "1" ∧ m'.role = Role.model :=
  ⟨by decide,
    (history_update_shape_amended stC4 5 (StreamOutcome.sendError 7)).2
      { id := "1", role := Role.model, text := "welcome" }
      (by decide) (by decide)⟩

end GeminiChat
